import Mathlib

set_option autoImplicit false

/-!
Shallow embedding of `movie_recommendations.py`: an item-based collaborative
filtering recommender.  Python floats are modelled as rationals (`ℚ`), Python
dicts as association lists with in-place-overwrite insertion (matching dict
key-order semantics), and Python exceptions as `Except`-style results paired
with the movie dictionary (the heap state), since exceptions propagate while
leaving earlier mutations in place.
-/

namespace MovieRec

/-- Python exception kinds that the program can raise: the program's own
`BadInputError`, a dict `KeyError`, and a `TypeError` (from arithmetic on the
`None` returned by `dict.get` on a missing key). -/
inductive PyErr where
  | badInput
  | keyError
  | typeError
deriving DecidableEq, Repr

/-- Lookup in a Python-dict modelled as an association list. -/
def lookupD {α : Type} (k : Nat) : List (Nat × α) → Option α
  | [] => none
  | p :: rest => if p.1 = k then some p.2 else lookupD k rest

/-- Python dict assignment `d[k] = v`: overwrites in place when the key is
present (keeping its position), appends at the end otherwise. -/
def dictInsert {α : Type} (k : Nat) (v : α) : List (Nat × α) → List (Nat × α)
  | [] => [(k, v)]
  | p :: rest => if p.1 = k then (k, v) :: rest else p :: dictInsert k v rest

/-- The `Movie` class: id, title, the list `users` of ids of users who rated
this movie, and the similarity cache `similarities` (movie id → similarity). -/
structure Movie where
  id : Nat
  title : String
  users : List Nat
  similarities : List (Nat × ℚ)
deriving DecidableEq, Repr

/-- `movie_dict`: movie id → Movie. -/
abbrev MovieDict := List (Nat × Movie)

/-- One user's ratings: movie id → rating. -/
abbrev UserRatings := List (Nat × ℚ)

/-- `user_dict`: user id → (movie id → rating). -/
abbrev UserDict := List (Nat × UserRatings)

/-- `makeMovieDict`: one `Movie` per `(id, title)` row, inserted in row order
(accumulator-passing form of the Python loop). -/
def makeMovieDict : List (Nat × String) → MovieDict → MovieDict
  | [], md => md
  | row :: rest, md =>
      makeMovieDict rest (dictInsert row.1 (Movie.mk row.1 row.2 [] []) md)

/-- One iteration of the `makeUserDict` loop on row `(user, movie, rating)`:
`user_dict.setdefault(user, {})[movie] = rating`, then append `user` to
`movie_dict[movie].users` if absent (`KeyError` when the movie is unknown). -/
def loadRating (ud : UserDict) (md : MovieDict) (row : Nat × Nat × ℚ) :
    Except PyErr (UserDict × MovieDict) :=
  match lookupD row.2.1 md with
  | none => Except.error PyErr.keyError
  | some mov =>
      Except.ok
        (dictInsert row.1
           (dictInsert row.2.1 row.2.2 ((lookupD row.1 ud).getD [])) ud,
         dictInsert row.2.1
           { mov with users := if row.1 ∈ mov.users then mov.users
                               else mov.users ++ [row.1] } md)

/-- `makeUserDict`: fold `loadRating` over the training-rating rows. -/
def loadRatings : List (Nat × Nat × ℚ) → UserDict → MovieDict →
    Except PyErr (UserDict × MovieDict)
  | [], ud, md => Except.ok (ud, md)
  | row :: rest, ud, md =>
      match loadRating ud md row with
      | Except.error e => Except.error e
      | Except.ok (ud', md') => loadRatings rest ud' md'

/-- `user_dict[x].get(a) - user_dict[x].get(b)` followed by `abs`:
`KeyError` when user `x` is unknown, `TypeError` when `.get` returns `None`
for either movie (arithmetic on `None`). -/
def absDiff (ud : UserDict) (a b x : Nat) : Except PyErr ℚ :=
  match lookupD x ud with
  | none => Except.error PyErr.keyError
  | some rx =>
      match lookupD a rx, lookupD b rx with
      | some ra, some rb => Except.ok |ra - rb|
      | _, _ => Except.error PyErr.typeError

/-- The `diff_lst` loop of `compute_similarity` over the co-raters. -/
def absDiffs (ud : UserDict) (a b : Nat) : List Nat → Except PyErr (List ℚ)
  | [] => Except.ok []
  | x :: rest =>
      match absDiff ud a b x with
      | Except.error e => Except.error e
      | Except.ok d =>
          match absDiffs ud a b rest with
          | Except.error e => Except.error e
          | Except.ok ds => Except.ok (d :: ds)

/-- `set(movie_dict[a].users).intersection(set(movie_dict[b].users))` as a
duplicate-free list. -/
def coRaters (ma mb : Movie) : List Nat :=
  (ma.users.filter (fun u => decide (u ∈ mb.users))).dedup

/-- `Movie.compute_similarity` for the movie whose id is `a` against movie
`b`: `0` when there are no co-raters, else `1 - (average |Δrating|) / 4.5`. -/
def compute_similarity (a b : Nat) (md : MovieDict) (ud : UserDict) :
    Except PyErr ℚ :=
  match lookupD a md, lookupD b md with
  | some ma, some mb =>
      let both := coRaters ma mb
      if both.length = 0 then Except.ok 0
      else
        match absDiffs ud a b both with
        | Except.error e => Except.error e
        | Except.ok ds => Except.ok (1 - (ds.sum / (ds.length : ℚ)) / (9/2))
  | _, _ => Except.error PyErr.keyError

/-- Python's `similarity in cache`: dict membership tests the *keys*, and the
keys are movie ids (ints), so this asks whether the computed value equals some
key numerically. -/
def valMem (q : ℚ) (cache : List (Nat × ℚ)) : Bool :=
  cache.any (fun p => decide ((p.1 : ℚ) = q))

/-- `Movie.get_similarity` for the movie whose id is `a` against movie `b`:
raise `BadInputError` when `b` is unknown; always recompute the similarity;
then, unless the computed value tests as a member (by value) of both caches,
store it in both movies' caches.  Returns the result together with the
possibly-updated `movie_dict`. -/
def get_similarity (a b : Nat) (md : MovieDict) (ud : UserDict) :
    Except PyErr ℚ × MovieDict :=
  match lookupD b md with
  | none => (Except.error PyErr.badInput, md)
  | some mb =>
      match compute_similarity a b md ud with
      | Except.error e => (Except.error e, md)
      | Except.ok sim =>
          match lookupD a md with
          | none => (Except.error PyErr.keyError, md)
          | some ma =>
              if valMem sim ma.similarities && valMem sim mb.similarities then
                (Except.ok sim, md)
              else
                match lookupD b (dictInsert a
                    { ma with similarities := dictInsert b sim ma.similarities } md) with
                | none =>
                    (Except.error PyErr.keyError,
                     dictInsert a
                       { ma with similarities := dictInsert b sim ma.similarities } md)
                | some mb1 =>
                    (Except.ok sim,
                     dictInsert b
                       { mb1 with similarities := dictInsert a sim mb1.similarities }
                       (dictInsert a
                         { ma with similarities := dictInsert b sim ma.similarities } md))

/-- The accumulation loop of `predict_rating` over the movies the user rated:
returns the `rate*similarity` list and the similarity list, threading the
movie dictionary through the `get_similarity` calls. -/
def predictLoop (mid : Nat) (ud : UserDict) :
    List (Nat × ℚ) → MovieDict → Except PyErr (List ℚ × List ℚ) × MovieDict
  | [], md => (Except.ok ([], []), md)
  | p :: rest, md =>
      match lookupD p.1 md with
      | none => (Except.error PyErr.keyError, md)
      | some mov =>
          match get_similarity mov.id mid md ud with
          | (Except.error e, md') => (Except.error e, md')
          | (Except.ok sim, md') =>
              match predictLoop mid ud rest md' with
              | (Except.error e, md'') => (Except.error e, md'')
              | (Except.ok (rxs, sims), md'') =>
                  (Except.ok ((p.2 * sim) :: rxs, sim :: sims), md'')

/-- `Movie_Recommendations.predict_rating`: `BadInputError` when the user or
the movie is unknown; exact recall of the stored rating when the user already
rated the movie; otherwise the similarity-weighted average, with fallback
`2.5` when the similarities sum to zero. -/
def predict_rating (uid mid : Nat) (md : MovieDict) (ud : UserDict) :
    Except PyErr ℚ × MovieDict :=
  match lookupD uid ud, lookupD mid md with
  | some ratings, some mov =>
      if uid ∈ mov.users then
        match lookupD mid ratings with
        | none => (Except.error PyErr.keyError, md)
        | some r => (Except.ok r, md)
      else
        match predictLoop mid ud ratings md with
        | (Except.error e, md') => (Except.error e, md')
        | (Except.ok (rxs, sims), md') =>
            if sims.sum = 0 then (Except.ok (5/2), md')
            else (Except.ok (rxs.sum / sims.sum), md')
  | _, _ => (Except.error PyErr.badInput, md)

/-- One row of `predict_ratings`: the movie title is looked up *before*
`predict_rating` is called, so an unknown movie id raises `KeyError` here. -/
def processRow (ud : UserDict) (md : MovieDict) (row : Nat × Nat × ℚ) :
    Except PyErr (Nat × String × ℚ × ℚ) × MovieDict :=
  match lookupD row.2.1 md with
  | none => (Except.error PyErr.keyError, md)
  | some mov =>
      match predict_rating row.1 row.2.1 md ud with
      | (Except.error e, md') => (Except.error e, md')
      | (Except.ok p, md') => (Except.ok (row.1, mov.title, p, row.2.2), md')

/-- `Movie_Recommendations.predict_ratings`: one
`(user id, title, predicted, actual)` tuple per test row, aborting the batch
on the first failing row. -/
def predict_ratings (ud : UserDict) :
    List (Nat × Nat × ℚ) → MovieDict →
      Except PyErr (List (Nat × String × ℚ × ℚ)) × MovieDict
  | [], md => (Except.ok [], md)
  | row :: rest, md =>
      match processRow ud md row with
      | (Except.error e, md') => (Except.error e, md')
      | (Except.ok t, md') =>
          match predict_ratings ud rest md' with
          | (Except.error e, md'') => (Except.error e, md'')
          | (Except.ok ts, md'') => (Except.ok (t :: ts), md'')

/-- States reachable by loading a catalog and training ratings and then
running any sequence of (possibly failing) prediction operations. -/
inductive Reachable : UserDict → MovieDict → Prop where
  | load : ∀ catRows ratRows ud md,
      loadRatings ratRows [] (makeMovieDict catRows []) = Except.ok (ud, md) →
      Reachable ud md
  | predict : ∀ ud md uid mid, Reachable ud md →
      Reachable ud (predict_rating uid mid md ud).2
  | batch : ∀ ud md rows, Reachable ud md →
      Reachable ud (predict_ratings ud rows md).2

/-- One movie's cached similarity for another: `movie_dict[k1].similarities[k2]`
as an optional value. -/
def cacheVal (md : MovieDict) (k1 k2 : Nat) : Option ℚ :=
  (lookupD k1 md).bind (fun mv => lookupD k2 mv.similarities)

/-- The cache-symmetry invariant, stated as symmetry of `cacheVal`. -/
def SymInv (md : MovieDict) : Prop :=
  ∀ k1 k2, cacheVal md k1 k2 = cacheVal md k2 k1

/-- The parts of a movie that prediction operations never change:
id, title and raters. -/
def Movie.core (mv : Movie) : Nat × String × List Nat :=
  (mv.id, mv.title, mv.users)

/-- Two movie dictionaries with the same keys and the same id/title/users at
every key (they may differ only in similarity caches). -/
def sameCore (md md' : MovieDict) : Prop :=
  ∀ k, (lookupD k md).map Movie.core = (lookupD k md').map Movie.core

/-- Total rating lookup (spec-side view of the rating table): the rating user
`u` gave movie `m`, defaulting to `0` when absent. -/
def ratingOf (ud : UserDict) (u m : Nat) : ℚ :=
  match lookupD u ud with
  | none => 0
  | some rx => (lookupD m rx).getD 0

/-- Spec-side view of the co-rater set: users who rated both movies. -/
def coFinset (ma mb : Movie) : Finset Nat :=
  ma.users.toFinset ∩ mb.users.toFinset

/-- The similarity value of `compute_similarity`, as a total function
(defaulting to `0` on error paths). -/
def simOf (md : MovieDict) (ud : UserDict) (mid m : Nat) : ℚ :=
  match compute_similarity m mid md ud with
  | Except.ok q => q
  | Except.error _ => 0

/-- Every movie object's `id` field agrees with its key in the dictionary. -/
def IdInv (md : MovieDict) : Prop :=
  ∀ k mv, lookupD k md = some mv → mv.id = k

/-- All similarity caches are empty (the state right after loading). -/
def cachesEmpty (md : MovieDict) : Prop :=
  ∀ k mv, lookupD k md = some mv → mv.similarities = []

/-- The load-time consistency invariant: a user is in a movie's raters list
exactly when the movie is a key of that user's rating map, and every movie id
in a rating map is a catalog key. -/
def LoadInv (ud : UserDict) (md : MovieDict) : Prop :=
  (∀ u m mv, lookupD m md = some mv →
      (u ∈ mv.users ↔ ∃ rx, lookupD u ud = some rx ∧ (lookupD m rx).isSome = true)) ∧
  (∀ u rx m, lookupD u ud = some rx → (lookupD m rx).isSome = true →
      (lookupD m md).isSome = true)

/-- Every movie in a freshly built catalog has its key as id and empty
raters and cache. -/
def freshInv (md : MovieDict) : Prop :=
  ∀ k mv, lookupD k md = some mv → mv.id = k ∧ mv.users = [] ∧ mv.similarities = []

/-- The invariant maintained while loading the training ratings. -/
def loadStateInv (ud : UserDict) (md : MovieDict) : Prop :=
  IdInv md ∧ cachesEmpty md ∧ LoadInv ud md

/-- A two-movie catalog used as a concrete test fixture. -/
def demoCat : List (Nat × String) := [(1, "A"), (2, "B")]

/-- Training ratings for the fixture: users 10 and 11 rated both movies,
user 12 rated only movie 1. -/
def demoTrain : List (Nat × Nat × ℚ) :=
  [(10, 1, 4), (10, 2, 3), (11, 1, 5), (11, 2, 4), (12, 1, 5)]

/-- The user dictionary produced by loading `demoTrain`. -/
def demoUD : UserDict :=
  [(10, [(1, 4), (2, 3)]), (11, [(1, 5), (2, 4)]), (12, [(1, 5)])]

/-- The movie dictionary produced by loading `demoCat` and `demoTrain`. -/
def demoMD1 : MovieDict :=
  [(1, Movie.mk 1 "A" [10, 11, 12] []), (2, Movie.mk 2 "B" [10, 11] [])]

/-- The fixture state after predicting movie 2 for user 12 (similarity 7/9 is
cached on both movies). -/
def demoMD2 : MovieDict :=
  [(1, Movie.mk 1 "A" [10, 11, 12] [(2, 7/9)]),
   (2, Movie.mk 2 "B" [10, 11] [(1, 7/9)])]

/-- Three movies with no raters: every pairwise similarity computes to `0`,
which collides with the integer movie-id cache keys under Python's
value-based `in` test. -/
def cexMD0 : MovieDict :=
  [(0, Movie.mk 0 "X" [] []), (1, Movie.mk 1 "Y" [] []), (2, Movie.mk 2 "Z" [] [])]

/-- `cexMD0` after `get_similarity` on movies (1, 0). -/
def cexMD1 : MovieDict := (get_similarity 1 0 cexMD0 []).2

/-- `cexMD1` after `get_similarity` on movies (0, 2). -/
def cexMD2 : MovieDict := (get_similarity 0 2 cexMD1 []).2

theorem lookupD_dictInsert_self {α : Type} (k : Nat) (v : α) (l : List (Nat × α)) :
    lookupD k (dictInsert k v l) = some v := by
  induction l with
  | nil => simp [dictInsert, lookupD]
  | cons p rest ih =>
      by_cases h : p.1 = k
      · simp [dictInsert, h, lookupD]
      · simp [dictInsert, h, lookupD, ih]

theorem lookupD_dictInsert_ne {α : Type} {k' k : Nat} (v : α) (l : List (Nat × α))
    (h : k' ≠ k) : lookupD k (dictInsert k' v l) = lookupD k l := by
  induction l with
  | nil => simp [dictInsert, lookupD, h]
  | cons p rest ih =>
      by_cases hp : p.1 = k'
      · have hpk : p.1 ≠ k := fun hk => h (hp ▸ hk)
        simp only [dictInsert, if_pos hp, lookupD, if_neg h, if_neg hpk]
      · by_cases hk : p.1 = k
        · simp only [dictInsert, if_neg hp, lookupD, if_pos hk]
        · simp only [dictInsert, if_neg hp, lookupD, if_neg hk, ih]

theorem lookupD_dictInsert {α : Type} (k' k : Nat) (v : α) (l : List (Nat × α)) :
    lookupD k (dictInsert k' v l) = if k' = k then some v else lookupD k l := by
  by_cases h : k' = k
  · subst h; simp [lookupD_dictInsert_self]
  · simp [h, lookupD_dictInsert_ne v l h]

theorem sameCore_refl (md : MovieDict) : sameCore md md := fun _ => rfl

theorem sameCore_trans {md1 md2 md3 : MovieDict}
    (h1 : sameCore md1 md2) (h2 : sameCore md2 md3) : sameCore md1 md3 :=
  fun k => (h1 k).trans (h2 k)

theorem sameCore_lookup_none {md md' : MovieDict} (h : sameCore md md') {k : Nat}
    (hk : lookupD k md = none) : lookupD k md' = none := by
  have := h k
  rw [hk] at this
  cases hmd' : lookupD k md' with
  | none => rfl
  | some mv => rw [hmd'] at this; simp at this

theorem sameCore_lookup_some {md md' : MovieDict} (h : sameCore md md') {k : Nat}
    {mv : Movie} (hk : lookupD k md = some mv) :
    ∃ mv', lookupD k md' = some mv' ∧ mv'.id = mv.id ∧ mv'.title = mv.title ∧
      mv'.users = mv.users := by
  have := h k
  rw [hk] at this
  cases hmd' : lookupD k md' with
  | none => rw [hmd'] at this; simp at this
  | some mv' =>
      rw [hmd'] at this
      simp [Movie.core, Prod.ext_iff] at this
      exact ⟨mv', rfl, this.1.symm, this.2.1.symm, this.2.2.symm⟩

/-- Inserting an updated movie that keeps id, title and users does not change
the core view of the dictionary. -/
theorem sameCore_dictInsert {md : MovieDict} {k : Nat} {mv mv' : Movie}
    (hk : lookupD k md = some mv) (hcore : mv'.core = mv.core) :
    sameCore md (dictInsert k mv' md) := by
  intro k'
  rw [lookupD_dictInsert]
  by_cases h : k = k'
  · subst h; rw [hk]; simp [hcore]
  · simp [h]

/-- Similarity computation reads only ids, raters and the rating table, so it
is unchanged between core-equal movie dictionaries. -/
theorem compute_similarity_congr {md md' : MovieDict} (h : sameCore md md')
    (a b : Nat) (ud : UserDict) :
    compute_similarity a b md ud = compute_similarity a b md' ud := by
  unfold compute_similarity
  cases ha : lookupD a md with
  | none => rw [sameCore_lookup_none h ha]
  | some ma =>
      obtain ⟨ma', ha', _, _, hu⟩ := sameCore_lookup_some h ha
      rw [ha']
      cases hb : lookupD b md with
      | none => rw [sameCore_lookup_none h hb]
      | some mb =>
          obtain ⟨mb', hb', _, _, hub⟩ := sameCore_lookup_some h hb
          rw [hb']
          simp only [coRaters, hu, hub]

/-- A successful similarity computation presupposes both movies are in the
dictionary. -/
theorem compute_ok_lookups {a b : Nat} {md : MovieDict} {ud : UserDict} {q : ℚ}
    (h : compute_similarity a b md ud = Except.ok q) :
    ∃ ma mb, lookupD a md = some ma ∧ lookupD b md = some mb := by
  unfold compute_similarity at h
  cases ha : lookupD a md with
  | none => rw [ha] at h; exact absurd h (by simp)
  | some ma =>
      cases hb : lookupD b md with
      | none => rw [ha, hb] at h; exact absurd h (by simp)
      | some mb => exact ⟨ma, mb, rfl, rfl⟩

theorem absDiff_ne_badInput (ud : UserDict) (a b x : Nat) :
    absDiff ud a b x ≠ Except.error PyErr.badInput := by
  unfold absDiff
  split
  · simp
  · split <;> simp

theorem absDiffs_ne_badInput (ud : UserDict) (a b : Nat) (l : List Nat) :
    absDiffs ud a b l ≠ Except.error PyErr.badInput := by
  induction l with
  | nil => simp [absDiffs]
  | cons x rest ih =>
      unfold absDiffs
      cases hd : absDiff ud a b x with
      | error e =>
          intro hc
          injection hc with he
          exact absDiff_ne_badInput ud a b x (he ▸ hd)
      | ok d =>
          cases hr : absDiffs ud a b rest with
          | error e =>
              intro hc
              injection hc with he
              exact ih (he ▸ hr)
          | ok ds => simp

/-- The similarity computation never raises `BadInputError` itself. -/
theorem compute_similarity_ne_badInput (a b : Nat) (md : MovieDict) (ud : UserDict) :
    compute_similarity a b md ud ≠ Except.error PyErr.badInput := by
  unfold compute_similarity
  cases lookupD a md with
  | none => simp
  | some ma =>
      cases lookupD b md with
      | none => simp
      | some mb =>
          by_cases hl : (coRaters ma mb).length = 0
          · simp [hl]
          · simp only [if_neg hl]
            cases hr : absDiffs ud a b (coRaters ma mb) with
            | error e =>
                intro hc
                injection hc with he
                exact absDiffs_ne_badInput ud a b _ (he ▸ hr)
            | ok ds => simp

/-- The value returned by `get_similarity` is always the freshly computed
similarity (the cache is never consulted for the returned value). -/
theorem get_similarity_fst {a b : Nat} {md : MovieDict} {ud : UserDict} {q : ℚ}
    (hc : compute_similarity a b md ud = Except.ok q) :
    (get_similarity a b md ud).1 = Except.ok q := by
  obtain ⟨ma, mb, ha, hb⟩ := compute_ok_lookups hc
  unfold get_similarity
  by_cases hv : (valMem q ma.similarities && valMem q mb.similarities) = true
  · simp only [hb, hc, ha, if_pos hv]
  · have hb1 : lookupD b (dictInsert a
        { ma with similarities := dictInsert b q ma.similarities } md) =
        if a = b then some { ma with similarities := dictInsert b q ma.similarities }
        else some mb := by
      rw [lookupD_dictInsert]
      by_cases hab : a = b
      · simp [hab]
      · simp [hab, hb]
    by_cases hab : a = b
    · simp only [hb, hc, ha, if_neg hv, hb1, if_pos hab]
    · simp only [hb, hc, ha, if_neg hv, hb1, if_neg hab]

/-- When the computed value does not pass the (value-based) membership test on
both caches, `get_similarity` stores it in both movies' caches. -/
theorem get_similarity_store {a b : Nat} {md : MovieDict} {ud : UserDict} {q : ℚ}
    {ma mb : Movie}
    (ha : lookupD a md = some ma) (hb : lookupD b md = some mb)
    (hc : compute_similarity a b md ud = Except.ok q)
    (hv : ¬(valMem q ma.similarities && valMem q mb.similarities) = true) :
    ∃ mb1, lookupD b (dictInsert a
        { ma with similarities := dictInsert b q ma.similarities } md) = some mb1 ∧
      get_similarity a b md ud =
        (Except.ok q,
         dictInsert b { mb1 with similarities := dictInsert a q mb1.similarities }
           (dictInsert a
             { ma with similarities := dictInsert b q ma.similarities } md)) := by
  have hb1 : lookupD b (dictInsert a
      { ma with similarities := dictInsert b q ma.similarities } md) =
      if a = b then some { ma with similarities := dictInsert b q ma.similarities }
      else some mb := by
    rw [lookupD_dictInsert]
    by_cases hab : a = b
    · simp [hab]
    · simp [hab, hb]
  by_cases hab : a = b
  · refine ⟨_, hb1.trans (if_pos hab), ?_⟩
    unfold get_similarity
    simp only [hb, hc, ha, if_neg hv, hb1, if_pos hab]
  · refine ⟨mb, hb1.trans (if_neg hab), ?_⟩
    unfold get_similarity
    simp only [hb, hc, ha, if_neg hv, hb1, if_neg hab]

/-- When the computed value passes the (value-based) membership test on both
caches, `get_similarity` modifies nothing. -/
theorem get_similarity_cached {a b : Nat} {md : MovieDict} {ud : UserDict} {q : ℚ}
    {ma mb : Movie}
    (ha : lookupD a md = some ma) (hb : lookupD b md = some mb)
    (hc : compute_similarity a b md ud = Except.ok q)
    (hv : (valMem q ma.similarities && valMem q mb.similarities) = true) :
    get_similarity a b md ud = (Except.ok q, md) := by
  unfold get_similarity
  simp only [hb, hc, ha, if_pos hv]

/-- `get_similarity` only ever touches similarity caches. -/
theorem get_similarity_sameCore (a b : Nat) (md : MovieDict) (ud : UserDict) :
    sameCore md (get_similarity a b md ud).2 := by
  unfold get_similarity
  cases hb : lookupD b md with
  | none => exact sameCore_refl md
  | some mb =>
      cases hc : compute_similarity a b md ud with
      | error e => exact sameCore_refl md
      | ok sim =>
          cases ha : lookupD a md with
          | none => exact sameCore_refl md
          | some ma =>
              by_cases hv : (valMem sim ma.similarities && valMem sim mb.similarities) = true
              · simp only [if_pos hv]; exact sameCore_refl md
              · simp only [if_neg hv]
                have h1 : sameCore md (dictInsert a
                    { ma with similarities := dictInsert b sim ma.similarities } md) :=
                  sameCore_dictInsert ha rfl
                cases hb1 : lookupD b (dictInsert a
                    { ma with similarities := dictInsert b sim ma.similarities } md) with
                | none => exact h1
                | some mb1 => exact sameCore_trans h1 (sameCore_dictInsert hb1 rfl)

theorem cacheVal_dictInsert (md : MovieDict) (k : Nat) (mv : Movie) (k1 k2 : Nat) :
    cacheVal (dictInsert k mv md) k1 k2 =
      if k = k1 then lookupD k2 mv.similarities else cacheVal md k1 k2 := by
  unfold cacheVal
  rw [lookupD_dictInsert]
  by_cases h : k = k1 <;> simp [h]


/-- The net effect of the double store in `get_similarity` on the cache view:
the unordered pair `(a, b)` now maps to the computed value in both directions,
everything else is unchanged. -/
theorem cacheVal_double_store {md : MovieDict} {a b : Nat} {ma mb1 : Movie} {q : ℚ}
    (ha : lookupD a md = some ma)
    (hb1 : lookupD b (dictInsert a
        { ma with similarities := dictInsert b q ma.similarities } md) = some mb1)
    (k1 k2 : Nat) :
    cacheVal (dictInsert b { mb1 with similarities := dictInsert a q mb1.similarities }
        (dictInsert a { ma with similarities := dictInsert b q ma.similarities } md))
        k1 k2 =
      if (k1 = a ∧ k2 = b) ∨ (k1 = b ∧ k2 = a) then some q
      else cacheVal md k1 k2 := by
  have hmdka : cacheVal md a k2 = lookupD k2 ma.similarities := by
    unfold cacheVal; rw [ha]; rfl
  rw [cacheVal_dictInsert, cacheVal_dictInsert]
  rw [lookupD_dictInsert] at hb1
  by_cases hab : a = b
  · subst hab
    rw [if_pos rfl] at hb1
    injection hb1 with hmb1
    subst hmb1
    by_cases h1 : a = k1
    · rw [if_pos h1]
      show lookupD k2 (dictInsert a q (dictInsert a q ma.similarities)) = _
      by_cases h2 : a = k2
      · rw [lookupD_dictInsert, if_pos h2, if_pos (Or.inl ⟨h1.symm, h2.symm⟩)]
      · rw [lookupD_dictInsert, if_neg h2, lookupD_dictInsert, if_neg h2,
            if_neg (fun hc => hc.elim (fun hk => h2 hk.2.symm) (fun hk => h2 hk.2.symm)),
            ← h1, hmdka]
    · rw [if_neg h1, if_neg h1,
          if_neg (fun hc => hc.elim (fun hk => h1 hk.1.symm) (fun hk => h1 hk.1.symm))]
  · by_cases h1 : b = k1
    · rw [if_pos h1]
      rw [if_neg hab] at hb1
      show lookupD k2 (dictInsert a q mb1.similarities) = _
      by_cases h2 : a = k2
      · rw [lookupD_dictInsert, if_pos h2, if_pos (Or.inr ⟨h1.symm, h2.symm⟩)]
      · have hcond : ¬((k1 = a ∧ k2 = b) ∨ (k1 = b ∧ k2 = a)) := by
          intro hc
          rcases hc with ⟨hk, _⟩ | ⟨_, hk⟩
          · exact hab (h1.trans hk).symm
          · exact h2 hk.symm
        rw [lookupD_dictInsert, if_neg h2, if_neg hcond]
        unfold cacheVal
        rw [← h1, hb1]
        rfl
    · rw [if_neg h1]
      by_cases h2 : a = k1
      · rw [if_pos h2]
        show lookupD k2 (dictInsert b q ma.similarities) = _
        by_cases h3 : b = k2
        · rw [lookupD_dictInsert, if_pos h3, if_pos (Or.inl ⟨h2.symm, h3.symm⟩)]
        · have hcond : ¬((k1 = a ∧ k2 = b) ∨ (k1 = b ∧ k2 = a)) := by
            intro hc
            rcases hc with ⟨_, hk⟩ | ⟨hk, _⟩
            · exact h3 hk.symm
            · exact h1 hk.symm
          rw [lookupD_dictInsert, if_neg h3, if_neg hcond, ← h2, hmdka]
      · have hcond : ¬((k1 = a ∧ k2 = b) ∨ (k1 = b ∧ k2 = a)) := by
          intro hc
          rcases hc with ⟨hk, _⟩ | ⟨hk, _⟩
          · exact h2 hk.symm
          · exact h1 hk.symm
        rw [if_neg h2, if_neg hcond]

/-- `get_similarity` preserves the cache-symmetry invariant. -/
theorem symInv_get_similarity {md : MovieDict} (hs : SymInv md)
    (a b : Nat) (ud : UserDict) : SymInv (get_similarity a b md ud).2 := by
  unfold get_similarity
  cases hb : lookupD b md with
  | none => exact hs
  | some mb =>
      cases hc : compute_similarity a b md ud with
      | error e => exact hs
      | ok sim =>
          cases ha : lookupD a md with
          | none => exact hs
          | some ma =>
              by_cases hv : (valMem sim ma.similarities && valMem sim mb.similarities) = true
              · simp only [if_pos hv]; exact hs
              · simp only [if_neg hv]
                cases hb1 : lookupD b (dictInsert a
                    { ma with similarities := dictInsert b sim ma.similarities } md) with
                | none =>
                    exfalso
                    rw [lookupD_dictInsert] at hb1
                    by_cases hab : a = b
                    · rw [if_pos hab] at hb1; exact Option.noConfusion hb1
                    · rw [if_neg hab, hb] at hb1; exact Option.noConfusion hb1
                | some mb1 =>
                    intro k1 k2
                    rw [cacheVal_double_store ha hb1 k1 k2,
                        cacheVal_double_store ha hb1 k2 k1]
                    by_cases h : (k1 = a ∧ k2 = b) ∨ (k1 = b ∧ k2 = a)
                    · have hsw : (k2 = a ∧ k1 = b) ∨ (k2 = b ∧ k1 = a) := by tauto
                      rw [if_pos h, if_pos hsw]
                    · have hsw : ¬((k2 = a ∧ k1 = b) ∨ (k2 = b ∧ k1 = a)) := by tauto
                      rw [if_neg h, if_neg hsw]
                      exact hs k1 k2

theorem sameCore_symm {md md' : MovieDict} (h : sameCore md md') : sameCore md' md :=
  fun k => (h k).symm

theorem sameCore_isSome {md md' : MovieDict} (h : sameCore md md') (k : Nat) :
    (lookupD k md).isSome = (lookupD k md').isSome := by
  have hk := h k
  cases h1 : lookupD k md <;> cases h2 : lookupD k md' <;> rw [h1, h2] at hk <;> simp_all

/-- The prediction loop only ever touches similarity caches, and preserves
cache symmetry. -/
theorem predictLoop_state (mid : Nat) (ud : UserDict) :
    ∀ (l : List (Nat × ℚ)) (md : MovieDict),
      sameCore md (predictLoop mid ud l md).2 ∧
      (SymInv md → SymInv (predictLoop mid ud l md).2) := by
  intro l
  induction l with
  | nil => intro md; exact ⟨sameCore_refl md, fun h => h⟩
  | cons p rest ih =>
      intro md
      unfold predictLoop
      cases hm : lookupD p.1 md with
      | none => exact ⟨sameCore_refl md, fun h => h⟩
      | some mov =>
          dsimp only
          cases hg : get_similarity mov.id mid md ud with
          | mk r md' =>
              have hsc : sameCore md md' := by
                have h := get_similarity_sameCore mov.id mid md ud
                rw [hg] at h; exact h
              have hsym : SymInv md → SymInv md' := by
                intro h
                have h2 := symInv_get_similarity h mov.id mid ud
                rw [hg] at h2; exact h2
              cases r with
              | error e => exact ⟨hsc, hsym⟩
              | ok sim =>
                  dsimp only
                  cases hp : predictLoop mid ud rest md' with
                  | mk r2 md'' =>
                      have hrc := (ih md').1
                      have hrs := (ih md').2
                      rw [hp] at hrc hrs
                      cases r2 with
                      | error e =>
                          exact ⟨sameCore_trans hsc hrc, fun h => hrs (hsym h)⟩
                      | ok pair =>
                          cases pair with
                          | mk rxs sims =>
                              exact ⟨sameCore_trans hsc hrc, fun h => hrs (hsym h)⟩


/-- `predict_rating` only ever touches similarity caches, and preserves cache
symmetry. -/
theorem predict_rating_state (uid mid : Nat) (md : MovieDict) (ud : UserDict) :
    sameCore md (predict_rating uid mid md ud).2 ∧
    (SymInv md → SymInv (predict_rating uid mid md ud).2) := by
  unfold predict_rating
  cases hu : lookupD uid ud with
  | none => cases hm : lookupD mid md <;> exact ⟨sameCore_refl md, fun h => h⟩
  | some ratings =>
      cases hm : lookupD mid md with
      | none => exact ⟨sameCore_refl md, fun h => h⟩
      | some mov =>
          by_cases hin : uid ∈ mov.users
          · simp only [if_pos hin]
            cases lookupD mid ratings <;> exact ⟨sameCore_refl md, fun h => h⟩
          · simp only [if_neg hin]
            cases hp : predictLoop mid ud ratings md with
            | mk r md' =>
                have h1 := predictLoop_state mid ud ratings md
                rw [hp] at h1
                cases r with
                | error e => exact h1
                | ok pair =>
                    cases pair with
                    | mk rxs sims =>
                        by_cases hz : sims.sum = 0
                        · simp only [if_pos hz]; exact h1
                        · simp only [if_neg hz]; exact h1

theorem processRow_state (ud : UserDict) (md : MovieDict) (row : Nat × Nat × ℚ) :
    sameCore md (processRow ud md row).2 ∧
    (SymInv md → SymInv (processRow ud md row).2) := by
  unfold processRow
  cases ht : lookupD row.2.1 md with
  | none => exact ⟨sameCore_refl md, fun h => h⟩
  | some mov =>
      cases hp : predict_rating row.1 row.2.1 md ud with
      | mk r md' =>
          have h1 := predict_rating_state row.1 row.2.1 md ud
          rw [hp] at h1
          cases r with
          | error e => exact h1
          | ok p => exact h1

/-- The batch predictor only ever touches similarity caches, and preserves
cache symmetry. -/
theorem predict_ratings_state (ud : UserDict) :
    ∀ (rows : List (Nat × Nat × ℚ)) (md : MovieDict),
      sameCore md (predict_ratings ud rows md).2 ∧
      (SymInv md → SymInv (predict_ratings ud rows md).2) := by
  intro rows
  induction rows with
  | nil => intro md; exact ⟨sameCore_refl md, fun h => h⟩
  | cons row rest ih =>
      intro md
      unfold predict_ratings
      cases hr : processRow ud md row with
      | mk r md' =>
          have h1 := processRow_state ud md row
          rw [hr] at h1
          cases r with
          | error e => exact h1
          | ok t =>
              dsimp only
              cases hb : predict_ratings ud rest md' with
              | mk r2 md'' =>
                  have h2 := ih md'
                  rw [hb] at h2
                  cases r2 with
                  | error e => exact ⟨sameCore_trans h1.1 h2.1, fun h => h2.2 (h1.2 h)⟩
                  | ok ts => exact ⟨sameCore_trans h1.1 h2.1, fun h => h2.2 (h1.2 h)⟩

theorem isSome_lookupD_dictInsert {α : Type} (k' k : Nat) (v : α) (l : List (Nat × α))
    (h : (lookupD k l).isSome = true) :
    (lookupD k (dictInsert k' v l)).isSome = true := by
  rw [lookupD_dictInsert]
  by_cases hk : k' = k <;> simp [hk, h]

theorem makeMovieDict_fresh : ∀ (rows : List (Nat × String)) (md : MovieDict),
    freshInv md → freshInv (makeMovieDict rows md) := by
  intro rows
  induction rows with
  | nil => intro md h; exact h
  | cons row rest ih =>
      intro md h
      unfold makeMovieDict
      apply ih
      intro k mv hk
      rw [lookupD_dictInsert] at hk
      by_cases hr : row.1 = k
      · rw [if_pos hr] at hk
        injection hk with hmv
        subst hmv
        exact ⟨hr, rfl, rfl⟩
      · rw [if_neg hr] at hk
        exact h k mv hk

theorem loadStateInv_start {md : MovieDict} (h : freshInv md) : loadStateInv [] md := by
  refine ⟨fun k mv hk => (h k mv hk).1, fun k mv hk => (h k mv hk).2.2, ?_, ?_⟩
  · intro u m mv hm
    rw [(h m mv hm).2.1]
    simp [lookupD]
  · intro u rx m hu
    simp [lookupD] at hu

theorem loadRating_inv {ud : UserDict} {md : MovieDict} {row : Nat × Nat × ℚ}
    {ud' : UserDict} {md' : MovieDict}
    (h : loadStateInv ud md)
    (hl : loadRating ud md row = Except.ok (ud', md')) :
    loadStateInv ud' md' := by
  obtain ⟨hid, hce, hla, hlb⟩ := h
  unfold loadRating at hl
  cases hm : lookupD row.2.1 md with
  | none => rw [hm] at hl; exact absurd hl (by simp)
  | some mov =>
      rw [hm] at hl
      injection hl with hpair
      injection hpair with hud hmd
      subst hud
      subst hmd
      refine ⟨?_, ?_, ?_, ?_⟩
      · -- IdInv
        intro k mv hk
        rw [lookupD_dictInsert] at hk
        by_cases hr : row.2.1 = k
        · rw [if_pos hr] at hk
          injection hk with hmv
          subst hmv
          exact hr ▸ hid row.2.1 mov hm
        · rw [if_neg hr] at hk
          exact hid k mv hk
      · -- cachesEmpty
        intro k mv hk
        rw [lookupD_dictInsert] at hk
        by_cases hr : row.2.1 = k
        · rw [if_pos hr] at hk
          injection hk with hmv
          subst hmv
          exact hce row.2.1 mov hm
        · rw [if_neg hr] at hk
          exact hce k mv hk
      · -- LoadInv, raters ↔ rating-key part
        intro u m mv hmv
        rw [lookupD_dictInsert] at hmv
        rw [lookupD_dictInsert]
        by_cases hm1 : row.2.1 = m
        · rw [if_pos hm1] at hmv
          injection hmv with hmv
          subst hmv
          by_cases hu1 : row.1 = u
          · -- the loaded row itself: both sides hold
            subst hm1
            subst hu1
            constructor
            · intro _
              rw [if_pos rfl]
              refine ⟨_, rfl, ?_⟩
              rw [lookupD_dictInsert, if_pos rfl]
              rfl
            · intro _
              by_cases hin : row.1 ∈ mov.users
              · rw [if_pos hin]; exact hin
              · rw [if_neg hin]; simp
          · -- another user, movie of the row: raters unchanged for u
            have hmem : (u ∈ (if row.1 ∈ mov.users then mov.users
                else mov.users ++ [row.1])) ↔ u ∈ mov.users := by
              by_cases hin : row.1 ∈ mov.users
              · rw [if_pos hin]
              · rw [if_neg hin]
                simp only [List.mem_append, List.mem_singleton]
                constructor
                · intro hc
                  rcases hc with hc | hc
                  · exact hc
                  · exact absurd hc.symm hu1
                · exact Or.inl
            show (u ∈ _) ↔ _
            rw [hmem, if_neg hu1]
            have := hla u m mov (hm1 ▸ hm)
            rw [this]
        · rw [if_neg hm1] at hmv
          by_cases hu1 : row.1 = u
          · -- the row's user, another movie
            rw [if_pos hu1, hla u m mv hmv]
            constructor
            · rintro ⟨rx, hrx, hsome⟩
              refine ⟨_, rfl, ?_⟩
              rw [lookupD_dictInsert, if_neg hm1, hu1, hrx]
              exact hsome
            · rintro ⟨rx, hrx, hsome⟩
              injection hrx with hrx
              subst hrx
              rw [lookupD_dictInsert, if_neg hm1] at hsome
              cases hold : lookupD row.1 ud with
              | none =>
                  rw [hold] at hsome
                  simp [lookupD] at hsome
              | some rx0 =>
                  rw [hold] at hsome
                  exact ⟨rx0, hu1 ▸ hold, hsome⟩
          · rw [if_neg hu1]
            exact hla u m mv hmv
      · -- LoadInv, rating-key ⊆ catalog part
        intro u rx m hu hsome
        rw [lookupD_dictInsert] at hu
        by_cases hm1 : row.2.1 = m
        · rw [lookupD_dictInsert, if_pos hm1]
          rfl
        · rw [lookupD_dictInsert, if_neg hm1]
          by_cases hu1 : row.1 = u
          · rw [if_pos hu1] at hu
            injection hu with hu
            subst hu
            rw [lookupD_dictInsert, if_neg hm1] at hsome
            cases hold : lookupD row.1 ud with
            | none => rw [hold] at hsome; simp [lookupD] at hsome
            | some rx0 =>
                rw [hold] at hsome
                exact hlb row.1 rx0 m hold hsome
          · rw [if_neg hu1] at hu
            exact hlb u rx m hu hsome

theorem loadRatings_inv : ∀ (rows : List (Nat × Nat × ℚ)) (ud : UserDict)
    (md : MovieDict) {ud' : UserDict} {md' : MovieDict},
    loadStateInv ud md →
    loadRatings rows ud md = Except.ok (ud', md') →
    loadStateInv ud' md' := by
  intro rows
  induction rows with
  | nil =>
      intro ud md ud' md' h hl
      injection hl with hp
      injection hp with h1 h2
      subst h1; subst h2
      exact h
  | cons row rest ih =>
      intro ud md ud' md' h hl
      unfold loadRatings at hl
      cases hr : loadRating ud md row with
      | error e => rw [hr] at hl; exact absurd hl (by simp)
      | ok st =>
          rw [hr] at hl
          cases st with
          | mk ud1 md1 =>
              exact ih ud1 md1 (loadRating_inv h hr) hl

theorem IdInv_sameCore {md md' : MovieDict} (h : sameCore md md') (hi : IdInv md) :
    IdInv md' := by
  intro k mv' hk
  obtain ⟨mv, hm, hid2, _, _⟩ := sameCore_lookup_some (sameCore_symm h) hk
  exact hid2.symm.trans (hi k mv hm)

theorem LoadInv_sameCore {ud : UserDict} {md md' : MovieDict}
    (h : sameCore md md') (hl : LoadInv ud md) : LoadInv ud md' := by
  constructor
  · intro u m mv' hm
    obtain ⟨mv, hmd, _, _, husers⟩ := sameCore_lookup_some (sameCore_symm h) hm
    rw [← husers]
    exact hl.1 u m mv hmd
  · intro u rx m hu hsome
    rw [← sameCore_isSome h m]
    exact hl.2 u rx m hu hsome

theorem symInv_of_cachesEmpty {md : MovieDict} (h : cachesEmpty md) : SymInv md := by
  have hside : ∀ j1 j2 : Nat, cacheVal md j1 j2 = none := by
    intro j1 j2
    unfold cacheVal
    cases hj : lookupD j1 md with
    | none => rfl
    | some mv =>
        show lookupD j2 mv.similarities = none
        rw [h j1 mv hj]
        rfl
  intro k1 k2
  rw [hside k1 k2, hside k2 k1]

/-- Every reachable state satisfies the id, load-consistency and
cache-symmetry invariants. -/
theorem reachable_inv {ud : UserDict} {md : MovieDict} (h : Reachable ud md) :
    IdInv md ∧ LoadInv ud md ∧ SymInv md := by
  induction h with
  | load catRows ratRows ud md hload =>
      have hfresh : freshInv (makeMovieDict catRows []) :=
        makeMovieDict_fresh catRows []
          (fun k mv hk => absurd hk (by simp [lookupD]))
      obtain ⟨hid, hce, hla⟩ := loadRatings_inv ratRows [] (makeMovieDict catRows [])
        (loadStateInv_start hfresh) hload
      exact ⟨hid, hla, symInv_of_cachesEmpty hce⟩
  | predict ud md uid mid hr ih =>
      obtain ⟨hid, hla, hsym⟩ := ih
      have hst := predict_rating_state uid mid md ud
      exact ⟨IdInv_sameCore hst.1 hid, LoadInv_sameCore hst.1 hla, hst.2 hsym⟩
  | batch ud md rows hr ih =>
      obtain ⟨hid, hla, hsym⟩ := ih
      have hst := predict_ratings_state ud rows md
      exact ⟨IdInv_sameCore hst.1 hid, LoadInv_sameCore hst.1 hla, hst.2 hsym⟩

theorem demo_load_eq :
    loadRatings demoTrain [] (makeMovieDict demoCat []) =
      Except.ok (demoUD, demoMD1) := by
  norm_num [loadRatings, loadRating, makeMovieDict, lookupD, dictInsert, demoCat,
    demoTrain, demoUD, demoMD1]

theorem demo_predict_eq :
    predict_rating 12 2 demoMD1 demoUD = (Except.ok 5, demoMD2) := by
  norm_num [predict_rating, predictLoop, get_similarity, compute_similarity, coRaters,
    absDiffs, absDiff, valMem, lookupD, dictInsert, demoUD, demoMD1, demoMD2,
    List.dedup]

theorem demo_reachable1 : Reachable demoUD demoMD1 :=
  Reachable.load demoCat demoTrain demoUD demoMD1 demo_load_eq

theorem demo_reachable2 : Reachable demoUD demoMD2 := by
  have h := Reachable.predict demoUD demoMD1 12 2 demo_reachable1
  rw [demo_predict_eq] at h
  exact h

theorem get_similarity_no_badInput {a b : Nat} {md : MovieDict} {ud : UserDict}
    (hb : (lookupD b md).isSome = true) :
    (get_similarity a b md ud).1 ≠ Except.error PyErr.badInput := by
  unfold get_similarity
  cases hbl : lookupD b md with
  | none => rw [hbl] at hb; simp at hb
  | some mb =>
      cases hc : compute_similarity a b md ud with
      | error e =>
          intro hcon
          injection hcon with he
          exact compute_similarity_ne_badInput a b md ud (he ▸ hc)
      | ok sim =>
          cases ha : lookupD a md with
          | none => simp
          | some ma =>
              by_cases hv : (valMem sim ma.similarities && valMem sim mb.similarities) = true
              · simp only [if_pos hv]
                simp
              · simp only [if_neg hv]
                cases lookupD b (dictInsert a
                    { ma with similarities := dictInsert b sim ma.similarities } md) with
                | none => simp
                | some mb1 => simp

theorem predictLoop_no_badInput (mid : Nat) (ud : UserDict) :
    ∀ (l : List (Nat × ℚ)) (md : MovieDict),
      (lookupD mid md).isSome = true →
      (predictLoop mid ud l md).1 ≠ Except.error PyErr.badInput := by
  intro l
  induction l with
  | nil => intro md _ hc; exact Except.noConfusion hc
  | cons p rest ih =>
      intro md hsome
      unfold predictLoop
      cases hm : lookupD p.1 md with
      | none => simp
      | some mov =>
          dsimp only
          cases hg : get_similarity mov.id mid md ud with
          | mk r md' =>
              have hsome' : (lookupD mid md').isSome = true := by
                have hsc := get_similarity_sameCore mov.id mid md ud
                rw [hg] at hsc
                rw [← sameCore_isSome hsc mid]
                exact hsome
              cases r with
              | error e =>
                  intro hc
                  injection hc with he
                  subst he
                  exact get_similarity_no_badInput hsome (by rw [hg])
              | ok sim =>
                  dsimp only
                  cases hp : predictLoop mid ud rest md' with
                  | mk r2 md'' =>
                      cases r2 with
                      | error e =>
                          intro hc
                          injection hc with he
                          subst he
                          exact ih md' hsome' (by rw [hp])
                      | ok pair =>
                          cases pair with
                          | mk rxs sims => simp

theorem predict_rating_badInput_of {uid mid : Nat} {md : MovieDict} {ud : UserDict}
    (h : lookupD uid ud = none ∨ lookupD mid md = none) :
    predict_rating uid mid md ud = (Except.error PyErr.badInput, md) := by
  unfold predict_rating
  rcases h with h | h
  · rw [h]
  · rw [h]; cases lookupD uid ud <;> rfl

/-- C6: `predict_rating` raises `BadInputError` exactly when the user id is
unknown to the rating table or the movie id is unknown to the catalog, and in
that case the raise happens before any computation: the movie dictionary (in
particular every similarity cache) is unchanged. -/
theorem predict_rating_badInput_iff (uid mid : Nat) (md : MovieDict) (ud : UserDict) :
    ((predict_rating uid mid md ud).1 = Except.error PyErr.badInput ↔
      (lookupD uid ud = none ∨ lookupD mid md = none)) ∧
    ((lookupD uid ud = none ∨ lookupD mid md = none) →
      (predict_rating uid mid md ud).2 = md) := by
  refine ⟨⟨?_, fun h => by rw [predict_rating_badInput_of h]⟩,
      fun h => by rw [predict_rating_badInput_of h]⟩
  intro herr
  by_cases hu : lookupD uid ud = none
  · exact Or.inl hu
  by_cases hm : lookupD mid md = none
  · exact Or.inr hm
  exfalso
  obtain ⟨ratings, hu'⟩ := Option.ne_none_iff_exists'.mp hu
  obtain ⟨mov, hm'⟩ := Option.ne_none_iff_exists'.mp hm
  unfold predict_rating at herr
  rw [hu', hm'] at herr
  dsimp only at herr
  by_cases hin : uid ∈ mov.users
  · rw [if_pos hin] at herr
    cases hr : lookupD mid ratings with
    | none =>
        rw [hr] at herr
        dsimp only at herr
        injection herr with he
        exact PyErr.noConfusion he
    | some r =>
        rw [hr] at herr
        dsimp only at herr
        exact Except.noConfusion herr
  · rw [if_neg hin] at herr
    cases hp : predictLoop mid ud ratings md with
    | mk r2 md' =>
        rw [hp] at herr
        cases r2 with
        | error e =>
            dsimp only at herr
            injection herr with he
            subst he
            exact predictLoop_no_badInput mid ud ratings md
              (by rw [hm']; rfl) (by rw [hp])
        | ok pair =>
            cases pair with
            | mk rxs sims =>
                dsimp only at herr
                by_cases hz : sims.sum = 0
                · rw [if_pos hz] at herr
                  exact Except.noConfusion herr
                · rw [if_neg hz] at herr
                  exact Except.noConfusion herr

/-- Witness for C6 at a concrete input: user 99 is unknown in the demo
fixture, so prediction fails with `BadInputError` and leaves the state
unchanged. -/
theorem predict_rating_badInput_iff_witness :
    (predict_rating 99 2 demoMD1 demoUD).1 = Except.error PyErr.badInput ∧
    (predict_rating 99 2 demoMD1 demoUD).2 = demoMD1 :=
  ⟨((predict_rating_badInput_iff 99 2 demoMD1 demoUD).1).mpr (Or.inl (by rfl)),
   ((predict_rating_badInput_iff 99 2 demoMD1 demoUD).2) (Or.inl (by rfl))⟩

/-- C4: in every state reachable by any sequence of load and prediction
operations, the similarity caches are symmetric: whenever movie id `m1` is a
key of `m2`'s cache, `m2` is a key of `m1`'s cache with the identical value
(and vice versa, by instantiating the theorem with the roles swapped). -/
theorem cache_symmetry_reachable {ud : UserDict} {md : MovieDict}
    (h : Reachable ud md) (m1 m2 : Nat) (mv1 mv2 : Movie) (q : ℚ)
    (h1 : lookupD m1 md = some mv1) (h2 : lookupD m2 md = some mv2)
    (hq : lookupD m1 mv2.similarities = some q) :
    lookupD m2 mv1.similarities = some q := by
  have hsym := (reachable_inv h).2.2 m2 m1
  unfold cacheVal at hsym
  rw [h1, h2] at hsym
  have heq : lookupD m1 mv2.similarities = lookupD m2 mv1.similarities := hsym
  rw [← heq]
  exact hq

/-- Witness for C4 at a concrete reachable state: after the demo load and one
prediction, movie 2 caches movie 1 with similarity 7/9, and the theorem
recovers the mirrored entry on movie 1. -/
theorem cache_symmetry_reachable_witness :
    lookupD 2 (Movie.mk 1 "A" [10, 11, 12] [(2, 7/9)]).similarities =
      some (7/9) :=
  cache_symmetry_reachable demo_reachable2
    1 2 (Movie.mk 1 "A" [10, 11, 12] [(2, 7/9)])
    (Movie.mk 2 "B" [10, 11] [(1, 7/9)]) (7/9)
    (by rfl) (by rfl) (by rfl)

/-- C5: when the user already rated the movie (the user id is in the movie's
raters list), `predict_rating` returns exactly the stored rating from the
rating table, without touching any similarity cache (the state is returned
unchanged). -/
theorem predict_rating_exact_recall {ud : UserDict} {md : MovieDict}
    (h : Reachable ud md) (uid mid : Nat) (rx : UserRatings) (mov : Movie)
    (hu : lookupD uid ud = some rx) (hm : lookupD mid md = some mov)
    (hin : uid ∈ mov.users) :
    predict_rating uid mid md ud = (Except.ok (ratingOf ud uid mid), md) := by
  obtain ⟨_, hla, _⟩ := reachable_inv h
  obtain ⟨rx', hrx', hsome⟩ := (hla.1 uid mid mov hm).mp hin
  rw [hu] at hrx'
  injection hrx' with he
  subst he
  cases hlook : lookupD mid rx with
  | none => rw [hlook] at hsome; simp at hsome
  | some r =>
      have hrat : ratingOf ud uid mid = r := by
        unfold ratingOf
        rw [hu]
        dsimp only
        rw [hlook]
        rfl
      unfold predict_rating
      rw [hu, hm]
      dsimp only
      rw [if_pos hin, hlook, hrat]

/-- Witness for C5: in the demo fixture user 10 already rated movie 2 with
3.0, and prediction returns exactly that value with the state unchanged. -/
theorem predict_rating_exact_recall_witness :
    predict_rating 10 2 demoMD1 demoUD = (Except.ok 3, demoMD1) := by
  have h := predict_rating_exact_recall demo_reachable1
    10 2 [(1, 4), (2, 3)] (Movie.mk 2 "B" [10, 11] [])
    (by rfl) (by rfl) (by decide)
  rw [h]
  rfl

/-- C3 counterexample: with three rater-less movies every similarity computes
to `0`, and after two prior calls have put the value `0` into caches under
integer keys, the call `get_similarity` on the pair `(2, 1)` returns `0` but
stores nothing: afterwards movie 2's cache still has no key `1` (Python's
`in` test compares the computed value against the keys, so the pair is deemed
cached although it never was). -/
theorem get_similarity_no_store_cex :
    Option.map (fun mv => lookupD 1 mv.similarities)
      (lookupD 2 (get_similarity 2 1 cexMD2 []).2) = some none := by
  norm_num [cexMD2, cexMD1, cexMD0, get_similarity, compute_similarity, coRaters,
    absDiffs, valMem, lookupD, dictInsert, List.dedup]

/-- C3 amended: `get_similarity` always recomputes the similarity and returns
that freshly computed value; it stores the value in both movies' caches keyed
by the other movie's id unless the value, compared numerically against the
integer keys, already occurs as a key of both caches — in which case neither
cache is modified.  Either both caches are updated or neither is. -/
theorem get_similarity_amended {a b : Nat} {md : MovieDict} {ud : UserDict}
    {q : ℚ} {ma mb : Movie}
    (ha : lookupD a md = some ma) (hb : lookupD b md = some mb)
    (hc : compute_similarity a b md ud = Except.ok q) :
    (get_similarity a b md ud).1 = Except.ok q ∧
    ((valMem q ma.similarities && valMem q mb.similarities) = true →
      (get_similarity a b md ud).2 = md) ∧
    ((valMem q ma.similarities && valMem q mb.similarities) ≠ true →
      cacheVal (get_similarity a b md ud).2 a b = some q ∧
      cacheVal (get_similarity a b md ud).2 b a = some q) := by
  refine ⟨get_similarity_fst hc, ?_, ?_⟩
  · intro hv
    rw [get_similarity_cached ha hb hc hv]
  · intro hv
    obtain ⟨mb1, hb1, hst⟩ := get_similarity_store ha hb hc hv
    rw [hst]
    dsimp only
    rw [cacheVal_double_store ha hb1 a b, cacheVal_double_store ha hb1 b a]
    constructor
    · rw [if_pos (Or.inl ⟨rfl, rfl⟩)]
    · rw [if_pos (Or.inr ⟨rfl, rfl⟩)]

/-- Witness for the amended C3: on the demo fixture the similarity 7/9 of the
pair (1, 2) is freshly computed, and since it matches no cache key it is
stored under both movies. -/
theorem get_similarity_amended_witness :
    (get_similarity 1 2 demoMD1 demoUD).1 = Except.ok (7/9) ∧
    cacheVal (get_similarity 1 2 demoMD1 demoUD).2 1 2 = some (7/9) ∧
    cacheVal (get_similarity 1 2 demoMD1 demoUD).2 2 1 = some (7/9) := by
  have h := @get_similarity_amended 1 2 demoMD1 demoUD (7/9)
    (Movie.mk 1 "A" [10, 11, 12] []) (Movie.mk 2 "B" [10, 11] [])
    (by rfl) (by rfl)
    (by norm_num [compute_similarity, coRaters, absDiffs, absDiff, lookupD,
      demoUD, demoMD1, List.dedup])
  exact ⟨h.1, (h.2.2 (by decide)).1, (h.2.2 (by decide)).2⟩

theorem absDiffs_self {ud : UserDict} {a : Nat} :
    ∀ (l : List Nat),
      (∀ x ∈ l, ∃ rx, lookupD x ud = some rx ∧ (lookupD a rx).isSome = true) →
      ∃ ds, absDiffs ud a a l = Except.ok ds ∧ ds.length = l.length ∧
        ∀ d ∈ ds, d = 0 := by
  intro l
  induction l with
  | nil => intro _; exact ⟨[], rfl, rfl, by simp⟩
  | cons x rest ih =>
      intro hok
      obtain ⟨rx, hrx, hsome⟩ := hok x (List.mem_cons_self x rest)
      obtain ⟨ra, hra⟩ := Option.isSome_iff_exists.mp hsome
      obtain ⟨ds, hds, hlen, hzero⟩ := ih (fun y hy => hok y (List.mem_cons_of_mem x hy))
      refine ⟨0 :: ds, ?_, by simp [hlen], ?_⟩
      · unfold absDiffs absDiff
        rw [hrx]
        dsimp only
        rw [hra]
        dsimp only
        rw [hds]
        dsimp only
        rw [sub_self, abs_zero]
      · intro d hd
        rcases List.mem_cons.mp hd with hd | hd
        · exact hd
        · exact hzero d hd

/-- C9: the similarity of a catalog movie with itself, when its raters list is
nonempty, computes to exactly 1: every co-rater's absolute rating difference
with itself is zero, so the average is zero and 1 - 0/4.5 = 1. -/
theorem self_similarity_one {ud : UserDict} {md : MovieDict}
    (h : Reachable ud md) (a : Nat) (ma : Movie)
    (hm : lookupD a md = some ma) (hne : ma.users ≠ []) :
    compute_similarity a a md ud = Except.ok 1 := by
  obtain ⟨_, hla, _⟩ := reachable_inv h
  have hfilter : ma.users.filter (fun u => decide (u ∈ ma.users)) = ma.users :=
    List.filter_eq_self.mpr (fun x hx => decide_eq_true hx)
  have hco : coRaters ma ma = ma.users.dedup := by
    unfold coRaters; rw [hfilter]
  have hcone : (coRaters ma ma).length ≠ 0 := by
    rw [hco]
    intro hzero
    exact hne ((List.dedup_eq_nil _).mp (List.length_eq_zero.mp hzero))
  have hok : ∀ x ∈ coRaters ma ma, ∃ rx, lookupD x ud = some rx ∧
      (lookupD a rx).isSome = true := by
    intro x hx
    have hxu : x ∈ ma.users := by
      rw [hco] at hx
      exact List.mem_dedup.mp hx
    exact (hla.1 x a ma hm).mp hxu
  obtain ⟨ds, hds, hlen, hzero⟩ := absDiffs_self (coRaters ma ma) hok
  have hsum : ds.sum = 0 := List.sum_eq_zero hzero
  unfold compute_similarity
  rw [hm]
  dsimp only
  rw [if_neg hcone, hds]
  dsimp only
  rw [hsum]
  norm_num

/-- Witness for C9: in the demo fixture movie 1 has raters, and its
self-similarity computes to 1. -/
theorem self_similarity_one_witness :
    compute_similarity 1 1 demoMD1 demoUD = Except.ok 1 :=
  self_similarity_one demo_reachable1 1 (Movie.mk 1 "A" [10, 11, 12] [])
    (by rfl) (by decide)

theorem absDiffs_ok {ud : UserDict} {a b : Nat} :
    ∀ (l : List Nat),
      (∀ x ∈ l, ∃ rx, lookupD x ud = some rx ∧ (lookupD a rx).isSome = true ∧
        (lookupD b rx).isSome = true) →
      absDiffs ud a b l =
        Except.ok (l.map (fun x => |ratingOf ud x a - ratingOf ud x b|)) := by
  intro l
  induction l with
  | nil => intro _; rfl
  | cons x rest ih =>
      intro hok
      obtain ⟨rx, hrx, hsa, hsb⟩ := hok x (List.mem_cons_self x rest)
      obtain ⟨ra, hra⟩ := Option.isSome_iff_exists.mp hsa
      obtain ⟨rb, hrb⟩ := Option.isSome_iff_exists.mp hsb
      have hrata : ratingOf ud x a = ra := by
        unfold ratingOf; rw [hrx]; dsimp only; rw [hra]; rfl
      have hratb : ratingOf ud x b = rb := by
        unfold ratingOf; rw [hrx]; dsimp only; rw [hrb]; rfl
      unfold absDiffs absDiff
      rw [hrx]
      dsimp only
      rw [hra, hrb]
      dsimp only
      rw [ih (fun y hy => hok y (List.mem_cons_of_mem x hy))]
      dsimp only
      rw [List.map_cons, hrata, hratb]

theorem mem_coRaters {ma mb : Movie} {x : Nat} (h : x ∈ coRaters ma mb) :
    x ∈ ma.users ∧ x ∈ mb.users := by
  unfold coRaters at h
  have h1 := List.mem_dedup.mp h
  have h2 := List.mem_filter.mp h1
  exact ⟨h2.1, of_decide_eq_true h2.2⟩

theorem coRaters_ok {ud : UserDict} {md : MovieDict} (hla : LoadInv ud md)
    {a b : Nat} {ma mb : Movie}
    (ha : lookupD a md = some ma) (hb : lookupD b md = some mb) :
    ∀ x ∈ coRaters ma mb, ∃ rx, lookupD x ud = some rx ∧
      (lookupD a rx).isSome = true ∧ (lookupD b rx).isSome = true := by
  intro x hx
  obtain ⟨hxa, hxb⟩ := mem_coRaters hx
  obtain ⟨rx, hrx, hsa⟩ := (hla.1 x a ma ha).mp hxa
  obtain ⟨rx', hrx', hsb⟩ := (hla.1 x b mb hb).mp hxb
  rw [hrx] at hrx'
  injection hrx' with he
  subst he
  exact ⟨rx, hrx, hsa, hsb⟩

/-- The list-based similarity computation agrees with the set-based
formulation of the specification: average the absolute rating differences
over the finite set of co-raters. -/
theorem compute_similarity_eq_finset {ud : UserDict} {md : MovieDict}
    {a b : Nat} {ma mb : Movie}
    (ha : lookupD a md = some ma) (hb : lookupD b md = some mb)
    (hok : ∀ x ∈ coRaters ma mb, ∃ rx, lookupD x ud = some rx ∧
      (lookupD a rx).isSome = true ∧ (lookupD b rx).isSome = true) :
    compute_similarity a b md ud =
      Except.ok (if coFinset ma mb = ∅ then 0
        else 1 - ((coFinset ma mb).sum
            (fun u => |ratingOf ud u a - ratingOf ud u b|) /
          ((coFinset ma mb).card : ℚ)) / (9/2)) := by
  have hnodup : (coRaters ma mb).Nodup := List.nodup_dedup _
  have hfinset : (coRaters ma mb).toFinset = coFinset ma mb := by
    unfold coRaters coFinset
    ext x
    simp [List.mem_dedup, List.mem_filter]
  have hcard : (coRaters ma mb).length = (coFinset ma mb).card := by
    rw [← hfinset, List.toFinset_card_of_nodup hnodup]
  have hsum : ((coRaters ma mb).map
      (fun u => |ratingOf ud u a - ratingOf ud u b|)).sum =
      (coFinset ma mb).sum (fun u => |ratingOf ud u a - ratingOf ud u b|) := by
    rw [← hfinset, List.sum_toFinset _ hnodup]
  unfold compute_similarity
  rw [ha, hb]
  dsimp only
  by_cases hlen : (coRaters ma mb).length = 0
  · have hemp : coFinset ma mb = ∅ := by
      rw [← hfinset, List.length_eq_zero.mp hlen]
      rfl
    rw [if_pos hlen, if_pos hemp]
  · have hemp : ¬coFinset ma mb = ∅ := by
      intro hemp
      exact hlen (by rw [hcard, hemp, Finset.card_empty])
    rw [if_neg hlen, absDiffs_ok _ hok]
    dsimp only
    rw [if_neg hemp, List.length_map, hsum, hcard]

/-- C2: for catalog movies `a` and `b` in a reachable state, the computed
similarity is 0 when the set of users who rated both movies is empty, and
otherwise equals 1 minus the average over co-raters of the absolute rating
difference, divided by 4.5. -/
theorem compute_similarity_spec {ud : UserDict} {md : MovieDict}
    (h : Reachable ud md) (a b : Nat) (ma mb : Movie)
    (ha : lookupD a md = some ma) (hb : lookupD b md = some mb) :
    compute_similarity a b md ud =
      Except.ok (if coFinset ma mb = ∅ then 0
        else 1 - ((coFinset ma mb).sum
            (fun u => |ratingOf ud u a - ratingOf ud u b|) /
          ((coFinset ma mb).card : ℚ)) / (9/2)) :=
  compute_similarity_eq_finset ha hb (coRaters_ok (reachable_inv h).2.1 ha hb)

/-- Witness for C2: on the demo fixture the co-raters of movies 1 and 2 are
users 10 and 11, the absolute differences are 1 and 1, and the similarity is
1 - 1/4.5 = 7/9. -/
theorem compute_similarity_spec_witness :
    compute_similarity 1 2 demoMD1 demoUD = Except.ok (7/9) := by
  have h := compute_similarity_spec demo_reachable1 1 2
    (Movie.mk 1 "A" [10, 11, 12] []) (Movie.mk 2 "B" [10, 11] [])
    (by rfl) (by rfl)
  rw [h]
  have hco : coFinset (Movie.mk 1 "A" [10, 11, 12] [])
      (Movie.mk 2 "B" [10, 11] []) = {10, 11} := by decide
  have hcard : ({10, 11} : Finset Nat).card = 2 := by decide
  rw [hco, if_neg (by decide), Finset.sum_insert (by decide),
      Finset.sum_singleton, hcard]
  norm_num [ratingOf, lookupD, demoUD]

theorem demo_get_eq :
    get_similarity 1 2 demoMD1 demoUD = (Except.ok (7/9), demoMD2) := by
  norm_num [get_similarity, compute_similarity, coRaters, absDiffs, absDiff,
    valMem, lookupD, dictInsert, demoUD, demoMD1, demoMD2, List.dedup]

/-- C8: similarity is symmetric in its two arguments, and computing it twice
yields the identical value: a second `get_similarity` call on the state left
by a successful first call returns the same value. -/
theorem similarity_symmetric_stable {ud : UserDict} {md : MovieDict}
    (h : Reachable ud md) (a b : Nat) (ma mb : Movie)
    (ha : lookupD a md = some ma) (hb : lookupD b md = some mb) :
    compute_similarity a b md ud = compute_similarity b a md ud ∧
    (∀ q md', get_similarity a b md ud = (Except.ok q, md') →
      (get_similarity a b md' ud).1 = Except.ok q) := by
  have hla := (reachable_inv h).2.1
  constructor
  · rw [compute_similarity_eq_finset ha hb (coRaters_ok hla ha hb),
        compute_similarity_eq_finset hb ha (coRaters_ok hla hb ha)]
    have hcomm : coFinset mb ma = coFinset ma mb := Finset.inter_comm _ _
    have hsum : (coFinset ma mb).sum
        (fun u => |ratingOf ud u b - ratingOf ud u a|) =
        (coFinset ma mb).sum (fun u => |ratingOf ud u a - ratingOf ud u b|) :=
      Finset.sum_congr rfl (fun u _ => abs_sub_comm _ _)
    rw [hcomm, hsum]
  · intro q md' hg
    have hc : compute_similarity a b md ud = Except.ok q := by
      obtain ⟨q0, hc0⟩ : ∃ q0, compute_similarity a b md ud = Except.ok q0 :=
        ⟨_, compute_similarity_eq_finset ha hb (coRaters_ok hla ha hb)⟩
      have hfst := get_similarity_fst hc0
      rw [hg] at hfst
      dsimp only at hfst
      injection hfst with hq
      rw [hc0, hq]
    have hsc : sameCore md md' := by
      have h1 := get_similarity_sameCore a b md ud
      rw [hg] at h1
      exact h1
    have hc' : compute_similarity a b md' ud = Except.ok q := by
      rw [← compute_similarity_congr hsc a b ud]
      exact hc
    exact get_similarity_fst hc'

/-- Witness for C8: on the demo fixture similarity of (1,2) and (2,1) agree,
and after the first call cached 7/9 the repeated call still returns 7/9. -/
theorem similarity_symmetric_stable_witness :
    compute_similarity 1 2 demoMD1 demoUD = compute_similarity 2 1 demoMD1 demoUD ∧
    (get_similarity 1 2 demoMD2 demoUD).1 = Except.ok (7/9) := by
  have h := similarity_symmetric_stable demo_reachable1 1 2
    (Movie.mk 1 "A" [10, 11, 12] []) (Movie.mk 2 "B" [10, 11] [])
    (by rfl) (by rfl)
  exact ⟨h.1, h.2 (7/9) demoMD2 demo_get_eq⟩

theorem lookupD_isSome_of_mem {α : Type} {m : Nat} {r : α} {l : List (Nat × α)}
    (h : (m, r) ∈ l) : (lookupD m l).isSome = true := by
  induction l with
  | nil => cases h
  | cons p rest ih =>
      unfold lookupD
      by_cases hk : p.1 = m
      · simp [hk]
      · rw [if_neg hk]
        cases h with
        | head => exact absurd rfl hk
        | tail _ hmem => exact ih hmem

theorem compute_ok_of_loadInv {ud : UserDict} {md : MovieDict} (hla : LoadInv ud md)
    {a b : Nat} {ma mb : Movie}
    (ha : lookupD a md = some ma) (hb : lookupD b md = some mb) :
    ∃ q, compute_similarity a b md ud = Except.ok q :=
  ⟨_, compute_similarity_eq_finset ha hb (coRaters_ok hla ha hb)⟩

/-- The prediction loop, run on any core-equal evolution of a base state,
succeeds and returns exactly the `rate*similarity` and similarity lists of
the base state. -/
theorem predictLoop_values (mid : Nat) (ud : UserDict) (md0 : MovieDict) :
    ∀ (l : List (Nat × ℚ)) (md : MovieDict),
      sameCore md0 md →
      (∀ pq ∈ l, ∃ mv, lookupD pq.1 md0 = some mv ∧ mv.id = pq.1) →
      (∀ pq ∈ l, ∃ q, compute_similarity pq.1 mid md0 ud = Except.ok q) →
      (predictLoop mid ud l md).1 =
        Except.ok (l.map (fun p => p.2 * simOf md0 ud mid p.1),
                   l.map (fun p => simOf md0 ud mid p.1)) := by
  intro l
  induction l with
  | nil => intro md _ _ _; rfl
  | cons p rest ih =>
      intro md hsc hidh hokh
      obtain ⟨mv0, hmv0, hid0⟩ := hidh p (List.mem_cons_self p rest)
      obtain ⟨q, hq⟩ := hokh p (List.mem_cons_self p rest)
      obtain ⟨mv, hmv, hidv, _, _⟩ := sameCore_lookup_some hsc hmv0
      have hql : compute_similarity p.1 mid md ud = Except.ok q := by
        rw [← compute_similarity_congr hsc p.1 mid ud]
        exact hq
      have hsim : simOf md0 ud mid p.1 = q := by
        unfold simOf
        rw [hq]
      unfold predictLoop
      rw [hmv]
      dsimp only
      rw [hidv, hid0]
      cases hg : get_similarity p.1 mid md ud with
      | mk r1 md1 =>
          have hfst := get_similarity_fst hql
          rw [hg] at hfst
          dsimp only at hfst
          subst hfst
          dsimp only
          have hsc1 : sameCore md0 md1 := by
            have h1 := get_similarity_sameCore p.1 mid md ud
            rw [hg] at h1
            exact sameCore_trans hsc h1
          cases hp2 : predictLoop mid ud rest md1 with
          | mk r2 md2 =>
              have hrest := ih md1 hsc1
                (fun pq hpq => hidh pq (List.mem_cons_of_mem p hpq))
                (fun pq hpq => hokh pq (List.mem_cons_of_mem p hpq))
              rw [hp2] at hrest
              dsimp only at hrest
              subst hrest
              dsimp only
              rw [List.map_cons, List.map_cons, hsim]

/-- C1: for a known user and catalog movie the user has not rated,
`predict_rating` returns the fallback 2.5 when the similarities of the rated
movies against the target sum to zero, and otherwise the similarity-weighted
average of the user's ratings. -/
theorem predict_rating_weighted {ud : UserDict} {md : MovieDict}
    (h : Reachable ud md) (uid mid : Nat) (rx : UserRatings) (mov : Movie)
    (hu : lookupD uid ud = some rx) (hm : lookupD mid md = some mov)
    (hnr : lookupD mid rx = none) :
    (predict_rating uid mid md ud).1 =
      Except.ok
        (if (rx.map (fun p => simOf md ud mid p.1)).sum = 0 then 5/2
         else (rx.map (fun p => p.2 * simOf md ud mid p.1)).sum /
           (rx.map (fun p => simOf md ud mid p.1)).sum) := by
  obtain ⟨hid, hla, _⟩ := reachable_inv h
  have hnotin : uid ∉ mov.users := by
    intro hin
    obtain ⟨rx', hrx', hsome⟩ := (hla.1 uid mid mov hm).mp hin
    rw [hu] at hrx'
    injection hrx' with he
    subst he
    rw [hnr] at hsome
    simp at hsome
  have hidh : ∀ pq ∈ rx, ∃ mv, lookupD pq.1 md = some mv ∧ mv.id = pq.1 := by
    intro pq hmem
    have hms : (lookupD pq.1 rx).isSome = true := lookupD_isSome_of_mem hmem
    obtain ⟨mv, hmv⟩ := Option.isSome_iff_exists.mp (hla.2 uid rx pq.1 hu hms)
    exact ⟨mv, hmv, hid pq.1 mv hmv⟩
  have hokh : ∀ pq ∈ rx, ∃ q, compute_similarity pq.1 mid md ud = Except.ok q := by
    intro pq hmem
    obtain ⟨mv, hmv, _⟩ := hidh pq hmem
    exact compute_ok_of_loadInv hla hmv hm
  unfold predict_rating
  rw [hu, hm]
  dsimp only
  rw [if_neg hnotin]
  cases hp : predictLoop mid ud rx md with
  | mk r2 md' =>
      have hval := predictLoop_values mid ud md rx md (sameCore_refl md) hidh hokh
      rw [hp] at hval
      dsimp only at hval
      subst hval
      dsimp only
      by_cases hz : (rx.map (fun p => simOf md ud mid p.1)).sum = 0
      · rw [if_pos hz, if_pos hz]
      · rw [if_neg hz, if_neg hz]

/-- Witness for C1: user 12 rated only movie 1, so the prediction for movie 2
is the weighted average (5 * 7/9) / (7/9) = 5. -/
theorem predict_rating_weighted_witness :
    (predict_rating 12 2 demoMD1 demoUD).1 = Except.ok 5 := by
  have hs : simOf demoMD1 demoUD 2 1 = 7/9 := by
    have hc : compute_similarity 1 2 demoMD1 demoUD = Except.ok (7/9) := by
      norm_num [compute_similarity, coRaters, absDiffs, absDiff, lookupD,
        demoUD, demoMD1, List.dedup]
    unfold simOf
    rw [hc]
  have h := predict_rating_weighted demo_reachable1 12 2 [(1, 5)]
    (Movie.mk 2 "B" [10, 11] []) (by rfl) (by rfl) (by rfl)
  rw [h]
  simp only [List.map_cons, List.map_nil, List.sum_cons, List.sum_nil]
  rw [hs]
  norm_num

/-- C10: in every reachable state the load invariant holds — a user id is in
a movie's raters list exactly when that movie is a key of the user's rating
map, and every movie id in a rating map is a catalog key — and consequently
the exact-recall lookup of `predict_rating` and every per-co-rater rating
lookup of `compute_similarity` find their keys, so the similarity computation
of any two catalog movies never fails. -/
theorem load_invariant_consequences {ud : UserDict} {md : MovieDict}
    (h : Reachable ud md) :
    LoadInv ud md ∧
    (∀ uid mid mov, lookupD mid md = some mov → uid ∈ mov.users →
      ∃ rx r, lookupD uid ud = some rx ∧ lookupD mid rx = some r) ∧
    (∀ a b ma mb, lookupD a md = some ma → lookupD b md = some mb →
      ∀ x ∈ coRaters ma mb, ∃ rx ra rb, lookupD x ud = some rx ∧
        lookupD a rx = some ra ∧ lookupD b rx = some rb) ∧
    (∀ a b ma mb, lookupD a md = some ma → lookupD b md = some mb →
      ∃ q, compute_similarity a b md ud = Except.ok q) := by
  obtain ⟨hid, hla, _⟩ := reachable_inv h
  refine ⟨hla, ?_, ?_, ?_⟩
  · intro uid mid mov hm hin
    obtain ⟨rx, hrx, hsome⟩ := (hla.1 uid mid mov hm).mp hin
    obtain ⟨r, hr⟩ := Option.isSome_iff_exists.mp hsome
    exact ⟨rx, r, hrx, hr⟩
  · intro a b ma mb ha hb x hx
    obtain ⟨rx, hrx, hsa, hsb⟩ := coRaters_ok hla ha hb x hx
    obtain ⟨ra, hra⟩ := Option.isSome_iff_exists.mp hsa
    obtain ⟨rb, hrb⟩ := Option.isSome_iff_exists.mp hsb
    exact ⟨rx, ra, rb, hrx, hra, hrb⟩
  · intro a b ma mb ha hb
    exact compute_ok_of_loadInv hla ha hb

/-- Witness for C10: user 10 is a rater of demo movie 2, and the invariant
produces the stored rating entry. -/
theorem load_invariant_consequences_witness :
    ∃ rx r, lookupD 10 demoUD = some rx ∧ lookupD 2 rx = some r :=
  (load_invariant_consequences demo_reachable1).2.1 10 2
    (Movie.mk 2 "B" [10, 11] []) (by rfl) (by decide)

/-- C7 counterexample: a test row whose movie id is unknown to the catalog
aborts the batch with `KeyError` raised by the title lookup — not with the
`BadInputError` that `predict_rating` would raise for the same row
(`predict_rating` is never reached). -/
theorem predict_ratings_keyError_cex :
    (predict_ratings demoUD [(12, 99, 3)] demoMD1).1 = Except.error PyErr.keyError ∧
    (predict_rating 12 99 demoMD1 demoUD).1 = Except.error PyErr.badInput :=
  ⟨rfl, rfl⟩

theorem sameCore_title {md md' : MovieDict} (h : sameCore md md') (k : Nat) :
    Option.map Movie.title (lookupD k md) =
      Option.map Movie.title (lookupD k md') := by
  cases hk : lookupD k md with
  | none => rw [sameCore_lookup_none h hk]
  | some mv =>
      obtain ⟨mv', hk', _, ht, _⟩ := sameCore_lookup_some h hk
      rw [hk']
      simp [ht]

/-- On success the batch produces one tuple per row in input order: the user
id and the actual rating are copied from the row, and the title is the
catalog title of the row's movie. -/
theorem predict_ratings_ok_shape (ud : UserDict) :
    ∀ (rows : List (Nat × Nat × ℚ)) (md : MovieDict)
      (outs : List (Nat × String × ℚ × ℚ)) (md' : MovieDict),
      predict_ratings ud rows md = (Except.ok outs, md') →
      outs.length = rows.length ∧
      ∀ i (hi : i < outs.length) (hi' : i < rows.length),
        (outs.get ⟨i, hi⟩).1 = (rows.get ⟨i, hi'⟩).1 ∧
        (outs.get ⟨i, hi⟩).2.2.2 = (rows.get ⟨i, hi'⟩).2.2 ∧
        Option.map Movie.title (lookupD (rows.get ⟨i, hi'⟩).2.1 md) =
          some (outs.get ⟨i, hi⟩).2.1 := by
  intro rows
  induction rows with
  | nil =>
      intro md outs md' hok
      have hok' : ((Except.ok [] : Except PyErr (List (Nat × String × ℚ × ℚ))), md) =
          (Except.ok outs, md') := hok
      injection hok' with h1 h2
      injection h1 with h1
      subst h1
      refine ⟨rfl, ?_⟩
      intro i hi hi'
      exact absurd hi (Nat.not_lt_zero i)
  | cons row rest ih =>
      intro md outs md' hok
      unfold predict_ratings at hok
      cases hr : processRow ud md row with
      | mk r1 md1 =>
          rw [hr] at hok
          cases r1 with
          | error e => exact absurd hok (by simp)
          | ok t =>
              dsimp only at hok
              cases hb : predict_ratings ud rest md1 with
              | mk r2 md2 =>
                  rw [hb] at hok
                  cases r2 with
                  | error e => exact absurd hok (by simp)
                  | ok ts =>
                      dsimp only at hok
                      injection hok with h1 h2
                      injection h1 with h1
                      subst h1
                      obtain ⟨hlen, hidx⟩ := ih md1 ts md2 hb
                      have hsc : sameCore md md1 := by
                        have h1 := processRow_state ud md row
                        rw [hr] at h1
                        exact h1.1
                      have ht : t.1 = row.1 ∧ t.2.2.2 = row.2.2 ∧
                          Option.map Movie.title (lookupD row.2.1 md) = some t.2.1 := by
                        unfold processRow at hr
                        cases hmv : lookupD row.2.1 md with
                        | none => rw [hmv] at hr; exact absurd hr (by simp)
                        | some mov =>
                            rw [hmv] at hr
                            dsimp only at hr
                            cases hpr : predict_rating row.1 row.2.1 md ud with
                            | mk pr mdp =>
                                rw [hpr] at hr
                                cases pr with
                                | error e => exact absurd hr (by simp)
                                | ok pv =>
                                    dsimp only at hr
                                    injection hr with hr1 hr2
                                    injection hr1 with hr1
                                    subst hr1
                                    exact ⟨rfl, rfl, rfl⟩
                      constructor
                      · simp [hlen]
                      · intro i hi hi'
                        cases i with
                        | zero => exact ⟨ht.1, ht.2.1, ht.2.2⟩
                        | succ n =>
                            have hn : n < ts.length := by
                              simp only [List.length_cons] at hi
                              omega
                            have hn' : n < rest.length := by
                              simp only [List.length_cons] at hi'
                              omega
                            obtain ⟨ha1, ha2, ha3⟩ := hidx n hn hn'
                            refine ⟨ha1, ha2, ?_⟩
                            show Option.map Movie.title
                                (lookupD (rest.get ⟨n, hn'⟩).2.1 md) =
                              some ((ts.get ⟨n, hn⟩).2.1)
                            rw [sameCore_title hsc ((rest.get ⟨n, hn'⟩).2.1)]
                            exact ha3

/-- C7 amended: `predict_ratings` emits one 4-tuple per test row preserving
input order (user id and actual rating copied from the row, title from the
catalog), and the first failing row aborts the whole batch: with `KeyError`
when the row's movie id is unknown to the catalog (the title lookup precedes
`predict_rating`), otherwise with the error `predict_rating` raises,
propagated without modification. -/
theorem predict_ratings_batch (ud : UserDict) :
    ∀ (rows : List (Nat × Nat × ℚ)) (md : MovieDict),
      (∀ outs md', predict_ratings ud rows md = (Except.ok outs, md') →
        outs.length = rows.length ∧
        ∀ i (hi : i < outs.length) (hi' : i < rows.length),
          (outs.get ⟨i, hi⟩).1 = (rows.get ⟨i, hi'⟩).1 ∧
          (outs.get ⟨i, hi⟩).2.2.2 = (rows.get ⟨i, hi'⟩).2.2 ∧
          Option.map Movie.title (lookupD (rows.get ⟨i, hi'⟩).2.1 md) =
            some (outs.get ⟨i, hi⟩).2.1) ∧
      (∀ u m act rest, rows = (u, m, act) :: rest →
        (lookupD m md = none →
          (predict_ratings ud rows md).1 = Except.error PyErr.keyError) ∧
        (∀ e, (lookupD m md).isSome = true →
          (predict_rating u m md ud).1 = Except.error e →
          (predict_ratings ud rows md).1 = Except.error e)) := by
  intro rows md
  constructor
  · intro outs md' hok
    exact predict_ratings_ok_shape ud rows md outs md' hok
  · intro u m act rest hrows
    subst hrows
    constructor
    · intro hm
      unfold predict_ratings processRow
      dsimp only
      rw [hm]
    · intro e hms hpr
      obtain ⟨mov, hmv⟩ := Option.isSome_iff_exists.mp hms
      unfold predict_ratings processRow
      dsimp only
      rw [hmv]
      dsimp only
      cases hp : predict_rating u m md ud with
      | mk pr mdp =>
          rw [hp] at hpr
          dsimp only at hpr
          subst hpr
          rfl

/-- Witness for the amended C7: a one-row batch on the demo fixture succeeds,
and the theorem yields the title correspondence of its row. -/
theorem predict_ratings_batch_witness :
    Option.map Movie.title (lookupD 2 demoMD1) = some "B" := by
  have heval : predict_ratings demoUD [(10, 2, 3)] demoMD1 =
      (Except.ok [(10, "B", 3, 3)], demoMD1) := rfl
  exact (((predict_ratings_batch demoUD [(10, 2, 3)] demoMD1).1
    [(10, "B", 3, 3)] demoMD1 heval).2 0 (by decide) (by decide)).2.2

end MovieRec
